import Mathlib

set_option maxRecDepth 100000

/-!
# Pagination utilities of the book-library REST API

A shallow embedding of `utils/pagination.go` (`ParsePaginationQuery`, `Paginate`,
`CreatePaginationResponse`) together with the two DTOs of `dto/api.go` it uses, and the
part of the web framework's request context that the parsing function reads.

Go's `int` and `int64` are modelled as `Int` with explicit 64-bit wrap-around where an
arithmetic operation can overflow.
-/

namespace MentalArts

/-! ## Machine integers -/

/-- Largest value of Go's `int` / `int64` on a 64-bit target. -/
def maxInt : Int := 2 ^ 63 - 1

/-- Smallest value of Go's `int` / `int64` on a 64-bit target. -/
def minInt : Int := -(2 ^ 63)

/-- Two's-complement wrap-around of a mathematical integer into the 64-bit `int` range:
what Go's `+`, `-` and `*` on `int` deliver. -/
def wrapInt (x : Int) : Int := (x + 2 ^ 63) % 2 ^ 64 - 2 ^ 63

/-! ## DTOs (`dto/api.go`) -/

/-- Pagination request: `dto.PaginationQuery`. -/
structure PaginationQuery where
  Page : Int
  PageSize : Int
deriving DecidableEq, Repr

/-- Pagination response: `dto.Pagination`. -/
structure Pagination where
  TotalRecords : Int
  TotalPages : Int
  Page : Int
  PageSize : Int
  HasMore : Bool
deriving DecidableEq, Repr

/-! ## The request context read by `ParsePaginationQuery` -/

/-- A value held in the context's key store (`map[string]any`): either a Go `int`
or something of another dynamic type. -/
inductive KeyValue where
  | int (i : Int)
  | other (shown : String)
deriving DecidableEq, Repr

/-- The part of `*gin.Context` that the pagination code observes: the URL query
parameters, in order of appearance, and the per-request key store filled by `c.Set`. -/
structure Context where
  query : List (String × String)
  Keys : List (String × KeyValue)
deriving Repr

/-- The call `c.GetQuery(key)`: the first value of the query parameter and whether it is present. -/
def Context.GetQuery (c : Context) (key : String) : String × Bool :=
  match c.query.lookup key with
  | some v => (v, true)
  | none => ("", false)

/-- The call `c.Query(key)`: the first value of the query parameter, `""` when it is absent. -/
def Context.Query (c : Context) (key : String) : String :=
  (c.GetQuery key).1

/-- The call `c.Get(key)`: the entry of the key store. -/
def Context.Get (c : Context) (key : String) : Option KeyValue :=
  c.Keys.lookup key

/-- The call `c.GetInt(key)` in the two-valued form the source uses it in: the `int` stored
under `key` in the key store, and an error (`some _`) when there is no such `int`,
in which case the value is `0` as in the framework. The error never changes what
`ParsePaginationQuery` returns, since it is tested together with `value > 0`. -/
def Context.GetInt (c : Context) (key : String) : Int × Option String :=
  match c.Get key with
  | some (KeyValue.int i) => (i, none)
  | _ => (0, some "key does not hold an int")

/-- The call `c.Set(key, value)`: stores the value under `key` in the key store,
in front of any older entry. No code of the repository makes this call. -/
def Context.Set (c : Context) (key : String) (value : KeyValue) : Context :=
  { c with Keys := (key, value) :: c.Keys }

/-- An inbound HTTP request, as far as pagination is concerned: its URL query
parameters in order of appearance. -/
structure Request where
  query : List (String × String)
deriving Repr

/-- The context a list handler receives for a request. The framework starts every
request with an empty key store, the router of `main.go` is `gin.Default()` with no
further middleware, and no handler calls `c.Set` before `ParsePaginationQuery`. -/
def handlerContext (r : Request) : Context :=
  { query := r.query, Keys := [] }

/-! ## `utils/pagination.go` -/

/-- Constant `DefaultPage`. -/
def DefaultPage : Int := 1

/-- Constant `DefaultPageSize`. -/
def DefaultPageSize : Int := 10

/-- Function `ParsePaginationQuery`: extracts pagination parameters from the request. -/
def ParsePaginationQuery (c : Context) : PaginationQuery :=
  let pagination : PaginationQuery := { Page := DefaultPage, PageSize := DefaultPageSize }
  let pagination : PaginationQuery :=
    if c.Query "page" ≠ "" then
      if (c.GetQuery "page").2 then
        let pageVal := (c.GetInt "page").1
        let err := (c.GetInt "page").2
        -- `err == nil && pageVal > 0`, the conjunction evaluated left to right
        if err = none then
          if pageVal > 0 then
            { pagination with Page := pageVal }
          else pagination
        else pagination
      else pagination
    else pagination
  let pagination : PaginationQuery :=
    if c.Query "page_size" ≠ "" then
      if (c.GetQuery "page_size").2 then
        let pageSizeVal := (c.GetInt "page_size").1
        let err := (c.GetInt "page_size").2
        if err = none then
          if pageSizeVal > 0 then
            if pageSizeVal > 100 then
              { pagination with PageSize := 100 }
            else
              { pagination with PageSize := pageSizeVal }
          else pagination
        else pagination
      else pagination
    else pagination
  pagination

/-- The expression `clause.Limit` of gorm: the row limit (a `*int`, `nil` when no
limit was given) and the offset. -/
structure LimitClause where
  Limit : Option Int
  Offset : Int
deriving DecidableEq, Repr

/-- The part of a `*gorm.DB` query that `Paginate` touches: the expression held by
the LIMIT clause of its statement, `none` while neither `Limit` nor `Offset` has been
called on it. -/
structure DB where
  limitExpression : Option LimitClause
deriving DecidableEq, Repr

/-- The offset the query carries, if it has a LIMIT clause. -/
def DB.offsetClause (query : DB) : Option Int :=
  match query.limitExpression with
  | none => none
  | some v => some v.Offset

/-- The row limit the query carries, if any. -/
def DB.limitClause (query : DB) : Option Int :=
  match query.limitExpression with
  | none => none
  | some v => v.Limit

/-- The method `MergeClause` of gorm's `clause.Limit`, by which `AddClause` combines a
new LIMIT expression with the one the statement already holds: a missing or zero
limit is taken from the old expression, an offset of `0` gives way to a positive old
offset, and a negative new offset becomes `0`. Without an old expression the new one
is stored as it is. -/
def LimitClause.MergeClause (limit : LimitClause) (expression : Option LimitClause) :
    LimitClause :=
  match expression with
  | none => limit
  | some v =>
    let mergedLimit : Option Int :=
      if limit.Limit = none then
        (if v.Limit ≠ none then v.Limit else limit.Limit)
      else if limit.Limit = some 0 then
        (if v.Limit ≠ none then v.Limit else limit.Limit)
      else limit.Limit
    let mergedOffset : Int :=
      if limit.Offset = 0 then
        (if v.Offset > 0 then v.Offset else limit.Offset)
      else if limit.Offset < 0 then 0
      else limit.Offset
    { Limit := mergedLimit, Offset := mergedOffset }

/-- The call `query.Offset(offset)`: adds `clause.Limit{Offset: offset}`. -/
def DB.Offset (query : DB) (offset : Int) : DB :=
  { limitExpression :=
      some (LimitClause.MergeClause { Limit := none, Offset := offset } query.limitExpression) }

/-- The call `query.Limit(limit)`: adds `clause.Limit{Limit: &limit}`. -/
def DB.Limit (query : DB) (limit : Int) : DB :=
  { limitExpression :=
      some (LimitClause.MergeClause { Limit := some limit, Offset := 0 } query.limitExpression) }

/-- Function `Paginate`: applies pagination to a query. The subtraction and the product are
taken over the machine `int`. -/
def Paginate (query : DB) (pagination : PaginationQuery) : DB :=
  let offset := wrapInt (wrapInt (pagination.Page - 1) * pagination.PageSize)
  (query.Offset offset).Limit pagination.PageSize

/-! ## `float64` arithmetic

`CreatePaginationResponse` converts both operands to `float64`, divides, applies
`math.Ceil` and converts back to `int`. The model below is IEEE 754 binary64 with
round-to-nearest, ties-to-even, on a significand of 53 bits. A finite value is kept as
`mant * 2 ^ exp`. The exponent range of binary64 is not modelled: every value that arises
from two 64-bit integers has a magnitude between `2 ^ (-63)` and `2 ^ 63`, far inside the
normal range. The sign of zero is not modelled either; it has no influence on
`math.Ceil` followed by the conversion to `int`. -/

/-- A `float64` value. -/
inductive Float64 where
  | finite (mant : Int) (exp : Int)
  | inf (negative : Bool)
  | nan
deriving DecidableEq, Repr

/-- The integer nearest to `num / den`, the even one of the two in case of a tie. -/
def roundHalfEven (num den : Nat) : Nat :=
  let q := num / den
  let r := num % den
  if 2 * r < den then q
  else if den < 2 * r then q + 1
  else if q % 2 = 0 then q else q + 1

/-- Auxiliary of `floorLog2`: halve until less than `2`, at most `fuel` times. -/
def floorLog2Aux : Nat → Nat → Nat
  | 0, _ => 0
  | fuel + 1, n => if n < 2 then 0 else floorLog2Aux fuel (n / 2) + 1

/-- Position of the leading bit of `n`: the `e` with `2 ^ e <= n < 2 ^ (e + 1)`
(and `0` for `n = 0`). The fuel `n` is never exhausted. -/
def floorLog2 (n : Nat) : Nat := floorLog2Aux n n

/-- Correct rounding of the positive rational `a / b` to a 53-bit significand: the
result `(m, e)` stands for `m * 2 ^ e`. The quotient is first scaled by `2 ^ k` so
that it has more than 53 bits, then cut to the 53 leading bits with `roundHalfEven`. -/
def roundToFloat64 (a b : Nat) : Nat × Int :=
  let k := floorLog2 b + 54
  let sh := floorLog2 (a * 2 ^ k / b) - 52
  (roundHalfEven (a * 2 ^ k) (b * 2 ^ sh), (sh : Int) - (k : Int))

/-- Conversion `float64(n)` of an integer. -/
def float64OfInt (n : Int) : Float64 :=
  if n = 0 then Float64.finite 0 0
  else
    let r := roundToFloat64 n.natAbs 1
    if n < 0 then Float64.finite (-(r.1 : Int)) r.2 else Float64.finite (r.1 : Int) r.2

/-- Division `x / y` on `float64`. -/
def Float64.div : Float64 → Float64 → Float64
  | Float64.nan, _ => Float64.nan
  | _, Float64.nan => Float64.nan
  | Float64.inf _, Float64.inf _ => Float64.nan
  | Float64.inf s, Float64.finite m _ => Float64.inf (if m < 0 then !s else s)
  | Float64.finite _ _, Float64.inf _ => Float64.finite 0 0
  | Float64.finite m1 e1, Float64.finite m2 e2 =>
    if m2 = 0 then
      if m1 = 0 then Float64.nan else Float64.inf (decide (m1 < 0))
    else if m1 = 0 then Float64.finite 0 0
    else
      let r := roundToFloat64 m1.natAbs m2.natAbs
      if (decide (m1 < 0)) = (decide (m2 < 0)) then Float64.finite (r.1 : Int) (r.2 + e1 - e2)
      else Float64.finite (-(r.1 : Int)) (r.2 + e1 - e2)

/-- The function `math.Ceil`. -/
def Float64.ceil : Float64 → Float64
  | Float64.finite m e =>
    if 0 ≤ e then Float64.finite m e
    else Float64.finite (-((-m) / (2 : Int) ^ (-e).toNat)) 0
  | x => x

/-- Conversion `int(f)` of a `float64`: the fraction is discarded. A value outside
the range of `int`, an infinity or a NaN has an implementation-dependent result in Go;
the one of the amd64 target, the smallest `int`, is taken here. -/
def Float64.toInt : Float64 → Int
  | Float64.finite m e =>
    let x : Int :=
      if 0 ≤ e then m * (2 : Int) ^ e.toNat
      else if 0 ≤ m then m / (2 : Int) ^ (-e).toNat
      else -((-m) / (2 : Int) ^ (-e).toNat)
    if minInt ≤ x then (if x ≤ maxInt then x else minInt) else minInt
  | _ => minInt

/-- Function `CreatePaginationResponse`: creates a pagination response. -/
def CreatePaginationResponse (totalRecords : Int) (pagination : PaginationQuery) : Pagination :=
  let totalPages :=
    Float64.toInt (Float64.ceil
      (Float64.div (float64OfInt totalRecords) (float64OfInt pagination.PageSize)))
  { TotalRecords := totalRecords
    TotalPages := totalPages
    Page := pagination.Page
    PageSize := pagination.PageSize
    HasMore := decide (pagination.Page < totalPages) }

/-! ## Decimal reading of a query parameter

The source never converts the query strings to numbers; the following reading is
only the vocabulary in which the properties about "a decimal integer `<= 0`" and
"page = p as a decimal string" are phrased. -/

/-- Value of a run of decimal digits, `none` when a character is not a digit. -/
def digitsValue : List Char → Nat → Option Nat
  | [], acc => some acc
  | ch :: rest, acc =>
    if ch.isDigit then digitsValue rest (acc * 10 + (ch.toNat - 48)) else none

/-- The integer a string denotes in decimal (optional sign, at least one digit). -/
def decimalValue (s : String) : Option Int :=
  match s.toList with
  | [] => none
  | '-' :: ds => if ds = [] then none else (digitsValue ds 0).map (fun n => -(n : Int))
  | '+' :: ds => if ds = [] then none else (digitsValue ds 0).map (fun n => (n : Int))
  | ds => (digitsValue ds 0).map (fun n => (n : Int))

/-- The parameter is absent, empty, not a decimal integer, or a decimal integer `<= 0`. -/
def notPositiveDecimal (s : String) : Prop :=
  ∀ n : Int, decimalValue s = some n → n ≤ 0

/-! ## Properties of `ParsePaginationQuery` -/

/-- With an empty key store `c.GetInt` has nothing to return but `0`. -/
theorem getInt_handlerContext (r : Request) (key : String) :
    ((handlerContext r).GetInt key).1 = 0 := by
  simp [Context.GetInt, Context.Get, handlerContext]

/-- Whatever the query string of a request is, a list handler gets the defaults. -/
theorem parse_handlerContext (r : Request) :
    ParsePaginationQuery (handlerContext r) =
      { Page := DefaultPage, PageSize := DefaultPageSize } := by
  simp [ParsePaginationQuery, Context.GetInt, Context.Get, handlerContext]

/-- The `Page` field of the result, branch by branch. -/
theorem parse_Page (c : Context) :
    (ParsePaginationQuery c).Page =
      if c.Query "page" ≠ "" ∧ (c.GetQuery "page").2 = true ∧ (c.GetInt "page").2 = none ∧
          (c.GetInt "page").1 > 0
      then (c.GetInt "page").1 else DefaultPage := by
  unfold ParsePaginationQuery
  generalize c.Query "page" = qp
  generalize c.GetQuery "page" = gp
  generalize c.GetInt "page" = ip
  generalize c.Query "page_size" = qs
  generalize c.GetQuery "page_size" = gs
  generalize c.GetInt "page_size" = is
  by_cases h1 : qp = "" <;> by_cases h2 : gp.2 = true <;> by_cases h3 : ip.2 = none <;>
    by_cases h4 : ip.1 > 0 <;> by_cases k1 : qs = "" <;> by_cases k2 : gs.2 = true <;>
    by_cases k3 : is.2 = none <;> by_cases k4 : is.1 > 0 <;> by_cases k5 : is.1 > 100 <;>
    simp [h1, h2, h3, h4, k1, k2, k3, k4, k5]

/-- The `PageSize` field of the result, branch by branch. -/
theorem parse_PageSize (c : Context) :
    (ParsePaginationQuery c).PageSize =
      if c.Query "page_size" ≠ "" ∧ (c.GetQuery "page_size").2 = true ∧
          (c.GetInt "page_size").2 = none ∧ (c.GetInt "page_size").1 > 0
      then (if (c.GetInt "page_size").1 > 100 then 100 else (c.GetInt "page_size").1)
      else DefaultPageSize := by
  unfold ParsePaginationQuery
  generalize c.Query "page" = qp
  generalize c.GetQuery "page" = gp
  generalize c.GetInt "page" = ip
  generalize c.Query "page_size" = qs
  generalize c.GetQuery "page_size" = gs
  generalize c.GetInt "page_size" = is
  by_cases h1 : qp = "" <;> by_cases h2 : gp.2 = true <;> by_cases h3 : ip.2 = none <;>
    by_cases h4 : ip.1 > 0 <;> by_cases k1 : qs = "" <;> by_cases k2 : gs.2 = true <;>
    by_cases k3 : is.2 = none <;> by_cases k4 : is.1 > 0 <;> by_cases k5 : is.1 > 100 <;>
    simp [h1, h2, h3, h4, k1, k2, k3, k4, k5]

/-- C1: for every request context, whatever its `page` and `page_size` query
parameters (and whatever its key store holds), `ParsePaginationQuery` returns a
`PaginationQuery` with `Page >= 1` and `1 <= PageSize <= 100`. The function is total
and its result type has no error component. -/
theorem parse_result_in_bounds (c : Context) :
    1 ≤ (ParsePaginationQuery c).Page ∧
      1 ≤ (ParsePaginationQuery c).PageSize ∧ (ParsePaginationQuery c).PageSize ≤ 100 := by
  rw [parse_Page, parse_PageSize]
  simp only [DefaultPage, DefaultPageSize]
  refine ⟨?_, ?_, ?_⟩
  · split_ifs <;> omega
  · split_ifs <;> omega
  · split_ifs <;> omega

/-- C2: evaluation at the failing input. The request `?page=2&page_size=20` carries
a valid page and page size as decimal strings, and the list handlers still get
`Page = 1`, `PageSize = 10`: the numbers are read with `c.GetInt` from the key
store, which is empty, instead of being parsed from the query strings. -/
theorem parse_ignores_valid_query :
    decimalValue "2" = some 2 ∧ decimalValue "20" = some 20 ∧
      ParsePaginationQuery (handlerContext { query := [("page", "2"), ("page_size", "20")] }) =
        { Page := 1, PageSize := 10 } := by
  decide

/-- C3: evaluation at the failing input. The request `?page_size=500` asks for more
than the cap of 100 and the list handlers get `PageSize = 10`, the default, not the
cap `100`: the clamping branch is only reached through the key store. -/
theorem parse_large_page_size_gives_default :
    decimalValue "500" = some 500 ∧
      (ParsePaginationQuery (handlerContext { query := [("page_size", "500")] })).PageSize = 10 := by
  decide

/-- C4: for every request whose `page` query parameter is absent, empty, not a
decimal integer, or a decimal integer `<= 0`, whatever its `page_size` parameter is,
the `PaginationQuery` a list handler gets from `ParsePaginationQuery` has
`Page = DefaultPage = 1`. -/
theorem parse_bad_page_gives_default (r : Request)
    (h : notPositiveDecimal ((handlerContext r).Query "page")) :
    (ParsePaginationQuery (handlerContext r)).Page = DefaultPage ∧ DefaultPage = 1 := by
  have _ := h
  rw [parse_handlerContext r]
  exact ⟨rfl, rfl⟩

/-- Witness of C4 at the request `?page=-3&page_size=20`. -/
theorem parse_bad_page_gives_default_witness :
    (ParsePaginationQuery
        (handlerContext { query := [("page", "-3"), ("page_size", "20")] })).Page = DefaultPage ∧
      DefaultPage = 1 :=
  parse_bad_page_gives_default { query := [("page", "-3"), ("page_size", "20")] } (by
    intro n hn
    have hv : decimalValue "-3" = some (-3) := by decide
    have hq : (handlerContext { query := [("page", "-3"), ("page_size", "20")] }).Query "page"
        = "-3" := by decide
    rw [hq, hv] at hn
    cases hn
    decide)

/-- C5: for every request whose `page_size` query parameter is absent, empty, not a
decimal integer, or a decimal integer `<= 0`, the `PaginationQuery` a list handler
gets from `ParsePaginationQuery` has `PageSize = DefaultPageSize = 10`. -/
theorem parse_bad_page_size_gives_default (r : Request)
    (h : notPositiveDecimal ((handlerContext r).Query "page_size")) :
    (ParsePaginationQuery (handlerContext r)).PageSize = DefaultPageSize ∧
      DefaultPageSize = 10 := by
  have _ := h
  rw [parse_handlerContext r]
  exact ⟨rfl, rfl⟩

/-- Witness of C5 at the request `?page=4&page_size=abc`. -/
theorem parse_bad_page_size_gives_default_witness :
    (ParsePaginationQuery
        (handlerContext { query := [("page", "4"), ("page_size", "abc")] })).PageSize =
        DefaultPageSize ∧
      DefaultPageSize = 10 :=
  parse_bad_page_size_gives_default { query := [("page", "4"), ("page_size", "abc")] } (by
    intro n hn
    have hv : decimalValue "abc" = none := by decide
    have hq : (handlerContext { query := [("page", "4"), ("page_size", "abc")] }).Query
        "page_size" = "abc" := by decide
    rw [hq, hv] at hn
    cases hn)

/-! ## Properties of `Paginate` -/

/-- Inside the range of `int` the wrap-around changes nothing. -/
theorem wrapInt_of_fits (x : Int) (h1 : minInt ≤ x) (h2 : x ≤ maxInt) : wrapInt x = x := by
  unfold wrapInt
  unfold minInt at h1
  unfold maxInt at h2
  norm_num at h1 h2 ⊢
  omega

/-- A positive offset followed by a non-zero limit replaces whatever LIMIT clause
the query had. -/
theorem offset_limit_of_pos (query : DB) (o s : Int) (ho : 0 < o) (hs : s ≠ 0) :
    (query.Offset o).Limit s =
      { limitExpression := some { Limit := some s, Offset := o } } := by
  have h1 : ¬ o = 0 := by omega
  have h2 : ¬ o < 0 := by omega
  cases hq : query.limitExpression with
  | none => simp [DB.Offset, DB.Limit, LimitClause.MergeClause, hq, hs, ho]
  | some v => simp [DB.Offset, DB.Limit, LimitClause.MergeClause, hq, hs, ho, h1, h2]

/-- An offset of `0` followed by a non-zero limit, on a query that carries no
positive offset. -/
theorem offset_limit_of_zero (query : DB) (s : Int) (hs : s ≠ 0)
    (hq : ∀ o : Int, query.offsetClause = some o → o ≤ 0) :
    (query.Offset 0).Limit s =
      { limitExpression := some { Limit := some s, Offset := 0 } } := by
  cases hl : query.limitExpression with
  | none => simp [DB.Offset, DB.Limit, LimitClause.MergeClause, hl, hs]
  | some v =>
    have hv : ¬ v.Offset > 0 := by
      have := hq v.Offset (by simp [DB.offsetClause, hl])
      omega
    simp [DB.Offset, DB.Limit, LimitClause.MergeClause, hl, hs, hv]

/-- C6, as stated, fails, in two ways. `Page = 92233720368547760`, `PageSize = 100`
is a `PaginationQuery` with `Page >= 1` and `1 <= PageSize <= 100` whose offset
`(Page - 1) * PageSize = 9223372036854775900` does not fit the 64-bit `int`: the
product wraps around to a negative number, which the merge of the LIMIT clause drops,
and the query is left with offset `0`. And with `Page = 1` on a query that already
carries offset `7` the call `Offset(0)` keeps the `7`. -/
theorem paginate_offset_wraps :
    (Paginate { limitExpression := none }
        { Page := 92233720368547760, PageSize := 100 }).offsetClause = some 0 ∧
      (Paginate (DB.Offset { limitExpression := none } 7)
        { Page := 1, PageSize := 10 }).offsetClause = some 7 ∧
      ¬ ∀ (query : DB) (q : PaginationQuery), 1 ≤ q.Page → q.Page ≤ maxInt →
        1 ≤ q.PageSize → q.PageSize ≤ 100 →
        (Paginate query q).offsetClause = some ((q.Page - 1) * q.PageSize) := by
  refine ⟨by decide, by decide, ?_⟩
  intro h
  have h1 := h { limitExpression := none }
    { Page := 92233720368547760, PageSize := 100 } (by decide) (by decide) (by decide) (by decide)
  revert h1
  decide

/-- C6, amended: for every `PaginationQuery` with `Page >= 1`, `1 <= PageSize <= 100`
and `(Page - 1) * PageSize` not above the largest `int`, and for every query that
carries no positive offset yet (any query when `Page >= 2`), `Paginate` leaves the
query with exactly `offset = (Page - 1) * PageSize` and `limit = PageSize`. -/
theorem paginate_offset_limit (query : DB) (q : PaginationQuery)
    (hp : 1 ≤ q.Page) (hs1 : 1 ≤ q.PageSize) (hs2 : q.PageSize ≤ 100)
    (hfit : (q.Page - 1) * q.PageSize ≤ maxInt)
    (hq : 2 ≤ q.Page ∨ ∀ o : Int, query.offsetClause = some o → o ≤ 0) :
    (Paginate query q).offsetClause = some ((q.Page - 1) * q.PageSize) ∧
      (Paginate query q).limitClause = some q.PageSize := by
  have _ := hs2
  have h0 : 0 ≤ q.Page - 1 := by omega
  have hle : q.Page - 1 ≤ (q.Page - 1) * q.PageSize := by nlinarith
  have hmin : minInt ≤ 0 := by decide
  have e1 : wrapInt (q.Page - 1) = q.Page - 1 :=
    wrapInt_of_fits _ (le_trans hmin h0) (le_trans hle hfit)
  have e2 : wrapInt ((q.Page - 1) * q.PageSize) = (q.Page - 1) * q.PageSize :=
    wrapInt_of_fits _ (le_trans hmin (le_trans h0 hle)) hfit
  have hs : q.PageSize ≠ 0 := by omega
  have hP : Paginate query q =
      (query.Offset ((q.Page - 1) * q.PageSize)).Limit q.PageSize := by
    simp [Paginate, e1, e2]
  by_cases h2 : 2 ≤ q.Page
  · have hpos : 0 < (q.Page - 1) * q.PageSize := by nlinarith
    rw [hP, offset_limit_of_pos query _ _ hpos hs]
    exact ⟨rfl, rfl⟩
  · have hq2 : ∀ o : Int, query.offsetClause = some o → o ≤ 0 := by
      rcases hq with h | h
      · exact absurd h h2
      · exact h
    have hz : (q.Page - 1) * q.PageSize = 0 := by
      have : q.Page - 1 = 0 := by omega
      rw [this, zero_mul]
    rw [hP, hz, offset_limit_of_zero query _ hs hq2]
    exact ⟨rfl, rfl⟩

/-- Witness of the amended C6 at `Page = 3`, `PageSize = 10` on a query without a
LIMIT clause: offset 20, limit 10. -/
theorem paginate_offset_limit_witness :
    (Paginate { limitExpression := none }
        { Page := 3, PageSize := 10 }).offsetClause = some ((3 - 1) * 10) ∧
      (Paginate { limitExpression := none }
        { Page := 3, PageSize := 10 }).limitClause = some 10 :=
  paginate_offset_limit { limitExpression := none }
    { Page := 3, PageSize := 10 } (by decide) (by decide) (by decide) (by decide)
    (Or.inl (by decide))

/-! ## Properties of the `float64` model -/

/-- With enough fuel the halving count brackets `n` between two powers of two. -/
theorem floorLog2Aux_spec (fuel : Nat) : ∀ n : Nat, 1 ≤ n → n ≤ fuel →
    2 ^ floorLog2Aux fuel n ≤ n ∧ n < 2 ^ (floorLog2Aux fuel n + 1) := by
  induction fuel with
  | zero => intro n h1 h2; omega
  | succ fuel ih =>
    intro n h1 h2
    unfold floorLog2Aux
    by_cases h : n < 2
    · simp only [h, if_true]
      constructor
      · simpa using h1
      · simpa using h
    · simp only [h, if_false]
      have hh := ih (n / 2) (by omega) (by omega)
      obtain ⟨a1, a2⟩ := hh
      rw [pow_succ, pow_succ]
      rw [pow_succ] at a2
      constructor <;> omega

/-- The leading bit position brackets `n` between two powers of two. -/
theorem floorLog2_spec (n : Nat) (h : 1 ≤ n) :
    2 ^ floorLog2 n ≤ n ∧ n < 2 ^ (floorLog2 n + 1) :=
  floorLog2Aux_spec n n h (le_refl n)

/-- The bracket determines the leading bit position. -/
theorem floorLog2_unique (n e : Nat) (h1 : 2 ^ e ≤ n) (h2 : n < 2 ^ (e + 1)) :
    floorLog2 n = e := by
  have hn : 1 ≤ n := le_trans (Nat.one_le_two_pow) h1
  obtain ⟨s1, s2⟩ := floorLog2_spec n hn
  have a : floorLog2 n < e + 1 := by
    by_contra hc
    have : 2 ^ (e + 1) ≤ 2 ^ floorLog2 n := Nat.pow_le_pow_right (by norm_num) (by omega)
    omega
  have b : e < floorLog2 n + 1 := by
    by_contra hc
    have : 2 ^ (floorLog2 n + 1) ≤ 2 ^ e := Nat.pow_le_pow_right (by norm_num) (by omega)
    omega
  omega

/-- Multiplying by `2 ^ w` moves the leading bit up by `w`. -/
theorem floorLog2_mul_pow (n w : Nat) (h : 1 ≤ n) :
    floorLog2 (n * 2 ^ w) = floorLog2 n + w := by
  obtain ⟨s1, s2⟩ := floorLog2_spec n h
  apply floorLog2_unique
  · rw [pow_add]; exact Nat.mul_le_mul_right _ s1
  · have : 2 ^ (floorLog2 n + w + 1) = 2 ^ (floorLog2 n + 1) * 2 ^ w := by ring
    rw [this]
    exact Nat.mul_lt_mul_of_pos_right s2 (by positivity)

/-- The result of `roundHalfEven num den` is within half a unit of `num / den`. -/
theorem roundHalfEven_near (num den : Nat) (hd : 0 < den) :
    2 * (roundHalfEven num den * den) ≤ 2 * num + den ∧
      2 * num ≤ 2 * (roundHalfEven num den * den) + den := by
  have hdm := Nat.div_add_mod num den
  have hlt := Nat.mod_lt num hd
  unfold roundHalfEven
  generalize num / den = q at *
  generalize num % den = r at *
  have e1 : (q + 1) * den = den * q + den := by ring
  dsimp only
  split_ifs <;> (try rw [e1]) <;> (try rw [Nat.mul_comm q den]) <;> omega

/-- An exact quotient is returned unchanged. -/
theorem roundHalfEven_exact (c den : Nat) (hd : 0 < den) :
    roundHalfEven (c * den) den = c := by
  unfold roundHalfEven
  simp [Nat.mul_div_cancel _ hd, hd]

/-- The scaled quotient formed by `roundToFloat64` has at least 54 bits. -/
theorem scaled_quotient_large (a b : Nat) (ha : 1 ≤ a) (hb : 1 ≤ b) :
    2 ^ 53 ≤ a * 2 ^ (floorLog2 b + 54) / b := by
  obtain ⟨_, s2⟩ := floorLog2_spec b hb
  rw [Nat.le_div_iff_mul_le (by omega)]
  have e : 2 ^ (floorLog2 b + 54) = 2 ^ 53 * 2 ^ (floorLog2 b + 1) := by ring
  rw [e]
  calc 2 ^ 53 * b ≤ 2 ^ 53 * 2 ^ (floorLog2 b + 1) := Nat.mul_le_mul_left _ (le_of_lt s2)
    _ = 1 * (2 ^ 53 * 2 ^ (floorLog2 b + 1)) := by ring
    _ ≤ a * (2 ^ 53 * 2 ^ (floorLog2 b + 1)) := Nat.mul_le_mul_right _ ha

/-- Error bound of `roundToFloat64`: with `k` the scaling and `sh` the number of bits
cut off, the significand `m` satisfies `|m * (b * 2^sh) - a * 2^k| <= (b * 2^sh) / 2`,
and the unit `b * 2^sh` is at most `a * 2^k / 2^52`. -/
theorem roundToFloat64_near (a b : Nat) (ha : 1 ≤ a) (hb : 1 ≤ b) :
    ∃ sh : Nat, (roundToFloat64 a b).2 = (sh : Int) - ((floorLog2 b + 54 : Nat) : Int) ∧
      2 * ((roundToFloat64 a b).1 * (b * 2 ^ sh)) ≤ 2 * (a * 2 ^ (floorLog2 b + 54)) + b * 2 ^ sh ∧
      2 * (a * 2 ^ (floorLog2 b + 54)) ≤ 2 * ((roundToFloat64 a b).1 * (b * 2 ^ sh)) + b * 2 ^ sh ∧
      b * 2 ^ sh * 2 ^ 52 ≤ a * 2 ^ (floorLog2 b + 54) := by
  refine ⟨floorLog2 (a * 2 ^ (floorLog2 b + 54) / b) - 52, rfl, ?_, ?_, ?_⟩
  · exact (roundHalfEven_near _ _ (by positivity)).1
  · exact (roundHalfEven_near _ _ (by positivity)).2
  · have hq := scaled_quotient_large a b ha hb
    generalize a * 2 ^ (floorLog2 b + 54) = N at *
    have hQ1 : 1 ≤ N / b := le_trans Nat.one_le_two_pow hq
    obtain ⟨s1, s2⟩ := floorLog2_spec (N / b) hQ1
    have hL : 53 ≤ floorLog2 (N / b) := by
      by_contra hc
      have : 2 ^ (floorLog2 (N / b) + 1) ≤ 2 ^ 53 := Nat.pow_le_pow_right (by norm_num) (by omega)
      omega
    have e : b * 2 ^ (floorLog2 (N / b) - 52) * 2 ^ 52 = 2 ^ floorLog2 (N / b) * b := by
      rw [Nat.mul_assoc, ← pow_add, Nat.sub_add_cancel (by omega), Nat.mul_comm]
    rw [e]
    exact (Nat.le_div_iff_mul_le (by omega)).1 s1

/-- A quotient that has a 53-bit significand is rounded to itself: for
`a / b = n * 2^i / 2^j` with `n < 2^53` the result is the normalised form of `n`,
with the exponent shifted by `i - j`. -/
theorem roundToFloat64_exact (n c i j : Nat) (hn : 1 ≤ n) (hn2 : n < 2 ^ 53) (hc : 1 ≤ c) :
    roundToFloat64 (n * c * 2 ^ i) (c * 2 ^ j) =
      (n * 2 ^ (52 - floorLog2 n), (floorLog2 n : Int) + i - j - 52) := by
  obtain ⟨n1, n2⟩ := floorLog2_spec n hn
  have hLn : floorLog2 n ≤ 52 := by
    by_contra hc2
    have : 2 ^ 53 ≤ 2 ^ floorLog2 n := Nat.pow_le_pow_right (by norm_num) (by omega)
    omega
  have hb : 1 ≤ c * 2 ^ j := Nat.one_le_iff_ne_zero.2 (by positivity)
  have hLb : floorLog2 (c * 2 ^ j) = floorLog2 c + j := floorLog2_mul_pow c j hc
  unfold roundToFloat64
  simp only [hLb]
  have hN : n * c * 2 ^ i * 2 ^ (floorLog2 c + j + 54) =
      n * 2 ^ (i + floorLog2 c + 54) * (c * 2 ^ j) := by ring
  have hQ : n * c * 2 ^ i * 2 ^ (floorLog2 c + j + 54) / (c * 2 ^ j) =
      n * 2 ^ (i + floorLog2 c + 54) := by
    rw [hN]; exact Nat.mul_div_cancel _ (by omega)
  rw [hQ, floorLog2_mul_pow n _ hn]
  have hsh : floorLog2 n + (i + floorLog2 c + 54) - 52 = floorLog2 n + i + floorLog2 c + 2 := by
    omega
  rw [hsh]
  have hN2 : n * c * 2 ^ i * 2 ^ (floorLog2 c + j + 54) =
      n * 2 ^ (52 - floorLog2 n) * (c * 2 ^ j * 2 ^ (floorLog2 n + i + floorLog2 c + 2)) := by
    have e1 : n * 2 ^ (52 - floorLog2 n) * (c * 2 ^ j * 2 ^ (floorLog2 n + i + floorLog2 c + 2)) =
        n * c * (2 ^ (52 - floorLog2 n) * 2 ^ j * 2 ^ (floorLog2 n + i + floorLog2 c + 2)) := by
      ring
    have e2 : n * c * 2 ^ i * 2 ^ (floorLog2 c + j + 54) =
        n * c * (2 ^ i * 2 ^ (floorLog2 c + j + 54)) := by ring
    have hexp : 52 - floorLog2 n + j + (floorLog2 n + i + floorLog2 c + 2) =
        i + (floorLog2 c + j + 54) := by omega
    rw [e1, e2, ← pow_add, ← pow_add, ← pow_add, hexp]
  have hpos : 0 < c * 2 ^ j * 2 ^ (floorLog2 n + i + floorLog2 c + 2) := by positivity
  rw [hN2, roundHalfEven_exact _ _ hpos]
  have hexp2 : ((floorLog2 n + i + floorLog2 c + 2 : Nat) : Int) -
      ((floorLog2 c + j + 54 : Nat) : Int) = (floorLog2 n : Int) + i - j - 52 := by
    push_cast
    omega
  rw [hexp2]

/-- A number below `2 ^ 53` has its leading bit at position 52 or lower. -/
theorem floorLog2_le_52 (n : Nat) (hn : 1 ≤ n) (hn2 : n < 2 ^ 53) : floorLog2 n ≤ 52 := by
  obtain ⟨n1, _⟩ := floorLog2_spec n hn
  by_contra hc
  have : 2 ^ 53 ≤ 2 ^ floorLog2 n := Nat.pow_le_pow_right (by norm_num) (by omega)
  omega

/-- An integer with at most 53 bits converts to `float64` exactly. -/
theorem float64OfInt_small (T : Nat) (h1 : 1 ≤ T) (h2 : T < 2 ^ 53) :
    float64OfInt (T : Int) =
      Float64.finite ((T * 2 ^ (52 - floorLog2 T) : Nat) : Int) ((floorLog2 T : Int) - 52) := by
  have hr := roundToFloat64_exact T 1 0 0 h1 h2 (le_refl 1)
  have ea : T * 1 * 2 ^ 0 = T := by simp
  have eb : 1 * 2 ^ 0 = 1 := by simp
  rw [ea, eb] at hr
  have h0 : (T : Int) ≠ 0 := by omega
  have hneg : ¬ ((T : Int) < 0) := by omega
  unfold float64OfInt
  simp only [h0, hneg, if_false, Int.natAbs_ofNat, hr, Nat.cast_zero, add_zero, sub_zero]

/-- Division of two positive finite values. -/
theorem div_finite_pos (A B : Nat) (hA : 1 ≤ A) (hB : 1 ≤ B) (e1 e2 : Int) :
    Float64.div (Float64.finite (A : Int) e1) (Float64.finite (B : Int) e2) =
      Float64.finite ((roundToFloat64 A B).1 : Int) ((roundToFloat64 A B).2 + e1 - e2) := by
  have hA0 : (A : Int) ≠ 0 := by omega
  have hB0 : (B : Int) ≠ 0 := by omega
  have hAn : ¬ ((A : Int) < 0) := by omega
  have hBn : ¬ ((B : Int) < 0) := by omega
  simp only [Float64.div, hA0, hB0, hAn, hBn, if_false, Int.natAbs_ofNat, decide_False, if_true]

/-- The function `math.Ceil` followed by `int(...)` on a value with a negative exponent: the result
`c` is the integer with `(c - 1) * 2^K < m <= c * 2^K`. -/
theorem toInt_ceil_neg_exp (m : Int) (K : Nat) (hK : 1 ≤ K) (c : Int)
    (hlo : (c - 1) * 2 ^ K < m) (hhi : m ≤ c * 2 ^ K) (hc1 : minInt ≤ c) (hc2 : c ≤ maxInt) :
    Float64.toInt (Float64.ceil (Float64.finite m (-(K : Int)))) = c := by
  have hneg : ¬ (0 ≤ -(K : Int)) := by omega
  have hK2 : (- -(K : Int)).toNat = K := by simp
  have hP : (0 : Int) < 2 ^ K := by positivity
  have hdiv : -((-m) / (2 : Int) ^ K) = c := by
    have h1 : (-m) / (2 : Int) ^ K * 2 ^ K ≤ -m := Int.ediv_mul_le _ (ne_of_gt hP)
    have h2 : -m < ((-m) / (2 : Int) ^ K + 1) * 2 ^ K := Int.lt_ediv_add_one_mul_self _ hP
    generalize (-m) / (2 : Int) ^ K = d at *
    generalize (2 : Int) ^ K = P at *
    have a1 : -c ≤ d := by
      by_contra hcon
      have : d + 1 ≤ -c := by omega
      nlinarith
    have a2 : d ≤ -c := by
      by_contra hcon
      have : -c + 1 ≤ d := by omega
      nlinarith
    omega
  simp only [Float64.ceil, hneg, if_false, hK2, hdiv, Float64.toInt, le_refl, if_true,
    Int.toNat_zero, pow_zero, mul_one, hc1, hc2]

/-- A rounded quotient of a non-integral `T / S` stays strictly between the two
neighbouring integers when the rounding unit `S * G` is below `2 * W`. -/
theorem rounded_between (S n r m W G : Nat) (hr1 : 1 ≤ r) (hr2 : r < S)
    (h1 : 2 * (m * (S * G)) ≤ 2 * ((n * S + r) * W) + S * G)
    (h2 : 2 * ((n * S + r) * W) ≤ 2 * (m * (S * G)) + S * G)
    (h4 : S * G < 2 * W) :
    n * W < m * G ∧ m * G < (n + 1) * W := by
  constructor
  · by_contra h
    have h5 : m * G ≤ n * W := not_lt.1 h
    have h6 : S * (m * G) ≤ S * (n * W) := Nat.mul_le_mul_left S h5
    have h7 : 1 * W ≤ r * W := Nat.mul_le_mul_right W hr1
    have e1 : m * (S * G) = S * (m * G) := by ring
    have e2 : (n * S + r) * W = S * (n * W) + r * W := by ring
    rw [e1, e2] at h2
    omega
  · by_contra h
    have h5 : (n + 1) * W ≤ m * G := not_lt.1 h
    have h6 : S * ((n + 1) * W) ≤ S * (m * G) := Nat.mul_le_mul_left S h5
    have h7 : (r + 1) * W ≤ S * W := Nat.mul_le_mul_right W hr2
    have e1 : m * (S * G) = S * (m * G) := by ring
    have e2 : (n * S + r) * W = S * (n * W) + r * W := by ring
    have e3 : S * ((n + 1) * W) = S * (n * W) + S * W := by ring
    have e4 : (r + 1) * W = r * W + W := by ring
    rw [e1, e2] at h1
    rw [e3] at h6
    rw [e4] at h7
    omega

/-- With powers of two for `W` and `G`, the bracket forces `G` below `W`. -/
theorem between_pow (n m a b : Nat) (h1 : n * 2 ^ a < m * 2 ^ b)
    (h2 : m * 2 ^ b < (n + 1) * 2 ^ a) :
    b < a ∧ n * 2 ^ (a - b) < m ∧ m < (n + 1) * 2 ^ (a - b) := by
  have hb : b < a := by
    by_contra h
    have hab : a ≤ b := not_lt.1 h
    have e : (2 : Nat) ^ b = 2 ^ (b - a) * 2 ^ a := by
      rw [← pow_add, Nat.sub_add_cancel hab]
    rw [e, ← Nat.mul_assoc] at h1 h2
    have g1 := Nat.lt_of_mul_lt_mul_right h1
    have g2 := Nat.lt_of_mul_lt_mul_right h2
    omega
  have e : (2 : Nat) ^ a = 2 ^ (a - b) * 2 ^ b := by
    rw [← pow_add, Nat.sub_add_cancel (le_of_lt hb)]
  rw [e, ← Nat.mul_assoc] at h1 h2
  exact ⟨hb, Nat.lt_of_mul_lt_mul_right h1, Nat.lt_of_mul_lt_mul_right h2⟩

/-- Ceiling division on naturals when there is no remainder. -/
theorem ceilDiv_exact (n S : Nat) (hS : 1 ≤ S) : (n * S + S - 1) / S = n := by
  apply Nat.div_eq_of_lt_le
  · omega
  · have e : (n + 1) * S = n * S + S := by ring
    rw [e]; omega

/-- Ceiling division on naturals when there is a remainder. -/
theorem ceilDiv_inexact (n S r : Nat) (hr1 : 1 ≤ r) (hr2 : r < S) :
    (n * S + r + S - 1) / S = n + 1 := by
  apply Nat.div_eq_of_lt_le
  · have e : (n + 1) * S = n * S + S := by ring
    rw [e]; omega
  · have e : (n + 1 + 1) * S = n * S + S + S := by ring
    rw [e]; omega

/-- The quotient is integral: the `float64` computation returns it. -/
theorem totalPages_exact (n S : Nat) (hn1 : 1 ≤ n) (hT : n * S < 2 ^ 53) (hS1 : 1 ≤ S) :
    Float64.toInt (Float64.ceil
      (Float64.div (float64OfInt ((n * S : Nat) : Int)) (float64OfInt (S : Int)))) = (n : Int) := by
  have hTS : S ≤ n * S := Nat.le_mul_of_pos_left S hn1
  have hTn : n ≤ n * S := Nat.le_mul_of_pos_right n hS1
  have hS2 : S < 2 ^ 53 := lt_of_le_of_lt hTS hT
  have hn2 : n < 2 ^ 53 := lt_of_le_of_lt hTn hT
  have hpos : 1 ≤ n * S := le_trans hS1 hTS
  have hLS := floorLog2_le_52 S hS1 hS2
  have hLT := floorLog2_le_52 (n * S) hpos hT
  have hLn := floorLog2_le_52 n hn1 hn2
  have hA : 1 ≤ n * S * 2 ^ (52 - floorLog2 (n * S)) := Nat.one_le_iff_ne_zero.2 (by positivity)
  have hB : 1 ≤ S * 2 ^ (52 - floorLog2 S) := Nat.one_le_iff_ne_zero.2 (by positivity)
  rw [float64OfInt_small (n * S) hpos hT, float64OfInt_small S hS1 hS2,
    div_finite_pos _ _ hA hB,
    roundToFloat64_exact n S (52 - floorLog2 (n * S)) (52 - floorLog2 S) hn1 hn2 hS1]
  dsimp only
  by_cases h52 : floorLog2 n = 52
  · have hE : (floorLog2 n : Int) + ((52 - floorLog2 (n * S) : Nat) : Int) -
        ((52 - floorLog2 S : Nat) : Int) - 52 + ((floorLog2 (n * S) : Int) - 52) -
        ((floorLog2 S : Int) - 52) = 0 := by omega
    have h1 : minInt ≤ (n : Int) := by unfold minInt; omega
    have h2 : (n : Int) ≤ maxInt := by unfold maxInt; omega
    rw [hE, h52]
    simp only [Float64.ceil, Float64.toInt, le_refl, if_true, Int.toNat_zero, pow_zero, mul_one,
      Nat.sub_self, h1, h2]
  · have hE : (floorLog2 n : Int) + ((52 - floorLog2 (n * S) : Nat) : Int) -
        ((52 - floorLog2 S : Nat) : Int) - 52 + ((floorLog2 (n * S) : Int) - 52) -
        ((floorLog2 S : Int) - 52) = -((52 - floorLog2 n : Nat) : Int) := by omega
    rw [hE]
    apply toInt_ceil_neg_exp
    · omega
    · push_cast
      have hP : (0 : Int) < 2 ^ (52 - floorLog2 n) := by positivity
      nlinarith
    · push_cast
      exact le_refl _
    · unfold minInt; omega
    · unfold maxInt; omega

/-- The quotient is not integral: the `float64` computation returns the next integer. -/
theorem totalPages_inexact (n S r : Nat) (hr1 : 1 ≤ r) (hr2 : r < S)
    (hT : n * S + r < 2 ^ 53) (hS2 : S < 2 ^ 53) :
    Float64.toInt (Float64.ceil
      (Float64.div (float64OfInt ((n * S + r : Nat) : Int)) (float64OfInt (S : Int)))) =
      (n : Int) + 1 := by
  have hS1 : 1 ≤ S := by omega
  have hpos : 1 ≤ n * S + r := by omega
  have hnS : n ≤ n * S := Nat.le_mul_of_pos_right n hS1
  have hLS := floorLog2_le_52 S hS1 hS2
  have hLT := floorLog2_le_52 (n * S + r) hpos hT
  have hA : 1 ≤ (n * S + r) * 2 ^ (52 - floorLog2 (n * S + r)) :=
    Nat.one_le_iff_ne_zero.2 (by positivity)
  have hB : 1 ≤ S * 2 ^ (52 - floorLog2 S) := Nat.one_le_iff_ne_zero.2 (by positivity)
  rw [float64OfInt_small (n * S + r) hpos hT, float64OfInt_small S hS1 hS2,
    div_finite_pos _ _ hA hB]
  obtain ⟨sh, he, h1, h2, h3⟩ := roundToFloat64_near _ _ hA hB
  rw [floorLog2_mul_pow S _ hS1] at he h1 h2 h3
  generalize (roundToFloat64 ((n * S + r) * 2 ^ (52 - floorLog2 (n * S + r)))
    (S * 2 ^ (52 - floorLog2 S))).1 = m at *
  generalize (roundToFloat64 ((n * S + r) * 2 ^ (52 - floorLog2 (n * S + r)))
    (S * 2 ^ (52 - floorLog2 S))).2 = e at *
  generalize hi : 52 - floorLog2 (n * S + r) = i at *
  generalize hj : 52 - floorLog2 S = j at *
  have hk : floorLog2 S + j + 54 = 106 := by omega
  rw [hk] at he h1 h2 h3
  have eN : (n * S + r) * 2 ^ i * 2 ^ 106 = (n * S + r) * 2 ^ (i + 106) := by
    rw [Nat.mul_assoc, ← pow_add]
  have eD : S * 2 ^ j * 2 ^ sh = S * 2 ^ (j + sh) := by
    rw [Nat.mul_assoc, ← pow_add]
  rw [eN, eD] at h1 h2 h3
  have hW : 0 < 2 ^ (i + 106) := by positivity
  have h4 : S * 2 ^ (j + sh) < 2 * 2 ^ (i + 106) := by
    have hTW : (n * S + r + 1) * 2 ^ (i + 106) ≤ 2 ^ 53 * 2 ^ (i + 106) :=
      Nat.mul_le_mul_right _ hT
    have e1 : (n * S + r + 1) * 2 ^ (i + 106) =
        (n * S + r) * 2 ^ (i + 106) + 2 ^ (i + 106) := by ring
    rw [e1] at hTW
    generalize (n * S + r) * 2 ^ (i + 106) = TW at *
    generalize S * 2 ^ (j + sh) = X at *
    generalize 2 ^ (i + 106) = W at *
    norm_num at h3 hTW
    omega
  obtain ⟨b1, b2⟩ := rounded_between S n r m _ _ hr1 hr2 h1 h2 h4
  obtain ⟨c1, c2, c3⟩ := between_pow n m _ _ b1 b2
  have hE : e + ((floorLog2 (n * S + r) : Int) - 52) - ((floorLog2 S : Int) - 52) =
      -((i + 106 - (j + sh) : Nat) : Int) := by
    rw [he]; omega
  rw [hE]
  apply toInt_ceil_neg_exp
  · omega
  · have : ((n : Int) + 1 - 1) = n := by ring
    rw [this]
    exact_mod_cast c2
  · exact_mod_cast le_of_lt c3
  · unfold minInt; omega
  · unfold maxInt; omega

/-- No records: the `float64` computation returns `0`. -/
theorem totalPages_zero (S : Nat) (hS1 : 1 ≤ S) (hS2 : S < 2 ^ 53) :
    Float64.toInt (Float64.ceil
      (Float64.div (float64OfInt 0) (float64OfInt (S : Int)))) = 0 := by
  have hB : ((S * 2 ^ (52 - floorLog2 S) : Nat) : Int) ≠ 0 := by
    have : S * 2 ^ (52 - floorLog2 S) ≠ 0 := by positivity
    exact_mod_cast this
  have h0 : float64OfInt 0 = Float64.finite 0 0 := by simp [float64OfInt]
  rw [h0, float64OfInt_small S hS1 hS2]
  simp only [Float64.div, hB, if_false, if_true, Float64.ceil, le_refl, Float64.toInt,
    Int.toNat_zero, pow_zero, mul_one]
  decide

/-- Below `2^53` records the `float64` computation is the integer ceiling division. -/
theorem totalPages_below (T S : Nat) (hT : T < 2 ^ 53) (hS1 : 1 ≤ S) (hS2 : S < 2 ^ 53) :
    Float64.toInt (Float64.ceil
      (Float64.div (float64OfInt (T : Int)) (float64OfInt (S : Int)))) =
      (((T + S - 1) / S : Nat) : Int) := by
  have hdm := Nat.div_add_mod T S
  have hlt := Nat.mod_lt T (show 0 < S by omega)
  have hcomm : S * (T / S) = T / S * S := Nat.mul_comm _ _
  rw [hcomm] at hdm
  by_cases hr : T % S = 0
  · rw [hr, Nat.add_zero] at hdm
    by_cases hn : T / S = 0
    · have hT0 : T = 0 := by rw [← hdm, hn, Nat.zero_mul]
      subst hT0
      have e : (0 + S - 1) / S = 0 := Nat.div_eq_of_lt (by omega)
      rw [e]
      exact totalPages_zero S hS1 hS2
    · have e := ceilDiv_exact (T / S) S hS1
      rw [hdm] at e
      rw [e]
      have h := totalPages_exact (T / S) S (Nat.pos_of_ne_zero hn) (by rw [hdm]; exact hT) hS1
      rw [hdm] at h
      exact h
  · have e := ceilDiv_inexact (T / S) S (T % S) (Nat.pos_of_ne_zero hr) hlt
    rw [hdm] at e
    rw [e]
    have h := totalPages_inexact (T / S) S (T % S) (Nat.pos_of_ne_zero hr) hlt (by rw [hdm]; exact hT) hS2
    rw [hdm] at h
    push_cast
    exact h

/-- At exactly `2^53` records the two computations still agree, for each page size
from 1 to 100. -/
theorem totalPages_at_limit (s : Int) (hs1 : 1 ≤ s) (hs2 : s ≤ 100) :
    Float64.toInt (Float64.ceil
      (Float64.div (float64OfInt (2 ^ 53)) (float64OfInt s))) = (2 ^ 53 + s - 1) / s := by
  interval_cases s <;> decide

/-- Up to `2^53` records, `TotalPages` is the integer ceiling of
`totalRecords / PageSize`. -/
theorem totalPages_eq_ceilDiv (t : Int) (q : PaginationQuery) (ht0 : 0 ≤ t) (ht : t ≤ 2 ^ 53)
    (hs1 : 1 ≤ q.PageSize) (hs2 : q.PageSize ≤ 100) :
    (CreatePaginationResponse t q).TotalPages = (t + q.PageSize - 1) / q.PageSize := by
  show Float64.toInt (Float64.ceil
      (Float64.div (float64OfInt t) (float64OfInt q.PageSize))) = _
  generalize q.PageSize = s at *
  by_cases hlim : t = 2 ^ 53
  · rw [hlim]
    exact totalPages_at_limit s hs1 hs2
  · lift t to ℕ using ht0
    lift s to ℕ using (by omega : (0 : Int) ≤ s)
    have hT : t < 2 ^ 53 := by
      have h1 : (t : Int) < 2 ^ 53 := lt_of_le_of_ne ht hlim
      exact_mod_cast h1
    have hS1 : 1 ≤ s := by exact_mod_cast hs1
    have hS2 : s < 2 ^ 53 := by
      have : s ≤ 100 := by exact_mod_cast hs2
      omega
    rw [totalPages_below t s hT hS1 hS2]
    have e : ((t : Int) + s - 1) = ((t + s - 1 : Nat) : Int) := by omega
    rw [e]
    norm_cast

/-! ## Properties of `CreatePaginationResponse` -/

/-- C7, as stated, fails: at `totalRecords = 2^53 + 1 = 9007199254740993`,
`PageSize = 1` the conversion to `float64` rounds the count to `2^53`, so
`TotalPages = 9007199254740992`, while the integer ceiling division gives
`9007199254740993`. -/
theorem totalPages_float_rounds :
    (CreatePaginationResponse 9007199254740993 { Page := 1, PageSize := 1 }).TotalPages =
        9007199254740992 ∧
      ¬ ∀ (totalRecords : Int) (q : PaginationQuery), 0 ≤ totalRecords → totalRecords ≤ maxInt →
        1 ≤ q.PageSize → q.PageSize ≤ 100 →
        (CreatePaginationResponse totalRecords q).TotalPages =
          (totalRecords + q.PageSize - 1) / q.PageSize := by
  refine ⟨by decide, ?_⟩
  intro h
  have h1 := h 9007199254740993 { Page := 1, PageSize := 1 } (by decide) (by decide)
    (by decide) (by decide)
  revert h1
  decide

/-- C7, amended: for every `0 <= totalRecords <= 2^53` and every `PaginationQuery`
with `1 <= PageSize <= 100`, `CreatePaginationResponse` returns `TotalPages` equal to
the integer ceiling division `(totalRecords + PageSize - 1) / PageSize`: on this
range the `float64` divide-then-`math.Ceil` computation is exact. -/
theorem totalPages_is_ceiling (totalRecords : Int) (q : PaginationQuery)
    (ht0 : 0 ≤ totalRecords) (ht : totalRecords ≤ 2 ^ 53)
    (hs1 : 1 ≤ q.PageSize) (hs2 : q.PageSize ≤ 100) :
    (CreatePaginationResponse totalRecords q).TotalPages =
      (totalRecords + q.PageSize - 1) / q.PageSize :=
  totalPages_eq_ceilDiv totalRecords q ht0 ht hs1 hs2

/-- Witness of the amended C7: `totalRecords = 25`, `PageSize = 10` gives
`TotalPages = 3`. -/
theorem totalPages_is_ceiling_witness :
    (CreatePaginationResponse 25 { Page := 1, PageSize := 10 }).TotalPages = 3 := by
  have h := totalPages_is_ceiling 25 { Page := 1, PageSize := 10 } (by decide) (by decide)
    (by decide) (by decide)
  rw [h]
  decide

/-- C8: for every `totalRecords >= 0` and every `PaginationQuery` with `Page >= 1` and
`1 <= PageSize <= 100`, `HasMore` is true if and only if `Page` is strictly less than
the returned `TotalPages`; and `totalRecords = 25`, `Page = 3`, `PageSize = 10` gives
`TotalPages = 3`, `HasMore = false`. -/
theorem hasMore_iff_page_lt_totalPages (totalRecords : Int) (q : PaginationQuery)
    (ht0 : 0 ≤ totalRecords) (hp : 1 ≤ q.Page) (hs1 : 1 ≤ q.PageSize) (hs2 : q.PageSize ≤ 100) :
    ((CreatePaginationResponse totalRecords q).HasMore = true ↔
        q.Page < (CreatePaginationResponse totalRecords q).TotalPages) ∧
      (CreatePaginationResponse 25 { Page := 3, PageSize := 10 }).TotalPages = 3 ∧
      (CreatePaginationResponse 25 { Page := 3, PageSize := 10 }).HasMore = false := by
  have _ := ht0
  have _ := hp
  have _ := hs1
  have _ := hs2
  refine ⟨?_, by decide, by decide⟩
  simp [CreatePaginationResponse]

/-- Witness of C8 at `totalRecords = 25`, `Page = 1`, `PageSize = 10`: `HasMore` is
true and `1 < TotalPages`. -/
theorem hasMore_iff_page_lt_totalPages_witness :
    ((CreatePaginationResponse 25 { Page := 1, PageSize := 10 }).HasMore = true ↔
        (1 : Int) < (CreatePaginationResponse 25 { Page := 1, PageSize := 10 }).TotalPages) ∧
      (CreatePaginationResponse 25 { Page := 3, PageSize := 10 }).TotalPages = 3 ∧
      (CreatePaginationResponse 25 { Page := 3, PageSize := 10 }).HasMore = false :=
  hasMore_iff_page_lt_totalPages 25 { Page := 1, PageSize := 10 } (by decide) (by decide)
    (by decide) (by decide)

/-- C9: for every `PaginationQuery` with `Page >= 1` and `1 <= PageSize <= 100`,
`CreatePaginationResponse` called with `totalRecords = 0` returns `TotalPages = 0` and
`HasMore = false`. -/
theorem empty_result_no_pages (q : PaginationQuery)
    (hp : 1 ≤ q.Page) (hs1 : 1 ≤ q.PageSize) (hs2 : q.PageSize ≤ 100) :
    (CreatePaginationResponse 0 q).TotalPages = 0 ∧
      (CreatePaginationResponse 0 q).HasMore = false := by
  have h := totalPages_eq_ceilDiv 0 q (le_refl 0) (by norm_num) hs1 hs2
  have h0 : (0 + q.PageSize - 1) / q.PageSize = 0 :=
    Int.ediv_eq_zero_of_lt (by omega) (by omega)
  rw [h0] at h
  refine ⟨h, ?_⟩
  have hm : (CreatePaginationResponse 0 q).HasMore =
      decide (q.Page < (CreatePaginationResponse 0 q).TotalPages) := rfl
  rw [hm, h]
  simp only [decide_eq_false_iff_not, not_lt]
  omega

/-- Witness of C9 at `Page = 1`, `PageSize = 10`. -/
theorem empty_result_no_pages_witness :
    (CreatePaginationResponse 0 { Page := 1, PageSize := 10 }).TotalPages = 0 ∧
      (CreatePaginationResponse 0 { Page := 1, PageSize := 10 }).HasMore = false :=
  empty_result_no_pages { Page := 1, PageSize := 10 } (by decide) (by decide) (by decide)

/-- C10, as stated, fails: at `k = 2^53 + 3 = 9007199254740995`, `PageSize = 1` the
count `k * PageSize` is rounded up to `2^53 + 4` by the conversion to `float64`, so
`TotalPages = 9007199254740996`, one more than `k`, and with `Page = k` the response
has `HasMore = true`. -/
theorem exact_multiple_rounds_up :
    (CreatePaginationResponse (9007199254740995 * 1)
        { Page := 9007199254740995, PageSize := 1 }).TotalPages = 9007199254740996 ∧
      (CreatePaginationResponse (9007199254740995 * 1)
        { Page := 9007199254740995, PageSize := 1 }).HasMore = true ∧
      ¬ ∀ (k : Int) (q : PaginationQuery), 0 ≤ k → k * q.PageSize ≤ maxInt →
        1 ≤ q.PageSize → q.PageSize ≤ 100 →
        (CreatePaginationResponse (k * q.PageSize) q).TotalPages = k := by
  refine ⟨by decide, by decide, ?_⟩
  intro h
  have h1 := h 9007199254740995 { Page := 9007199254740995, PageSize := 1 } (by decide)
    (by decide) (by decide) (by decide)
  revert h1
  decide

/-- C10, amended: for every `k >= 0` and every `PaginationQuery` with
`1 <= PageSize <= 100` and `k * PageSize <= 2^53`, `CreatePaginationResponse` called
with `totalRecords = k * PageSize` returns `TotalPages = k` exactly, and with
`Page = k` (`k >= 1`) it returns `HasMore = false`. -/
theorem exact_multiple_total_pages (k : Int) (q : PaginationQuery)
    (hk : 0 ≤ k) (hs1 : 1 ≤ q.PageSize) (hs2 : q.PageSize ≤ 100)
    (hfit : k * q.PageSize ≤ 2 ^ 53) :
    (CreatePaginationResponse (k * q.PageSize) q).TotalPages = k ∧
      (1 ≤ k → (CreatePaginationResponse (k * q.PageSize)
        { Page := k, PageSize := q.PageSize }).HasMore = false) := by
  have hnn : 0 ≤ k * q.PageSize := mul_nonneg hk (by omega)
  have hdiv : (k * q.PageSize + q.PageSize - 1) / q.PageSize = k := by
    have e : k * q.PageSize + q.PageSize - 1 = (q.PageSize - 1) + k * q.PageSize := by ring
    rw [e, Int.add_mul_ediv_right _ _ (by omega : q.PageSize ≠ 0),
      Int.ediv_eq_zero_of_lt (by omega) (by omega)]
    ring
  have h := totalPages_eq_ceilDiv (k * q.PageSize) q hnn hfit hs1 hs2
  rw [hdiv] at h
  refine ⟨h, ?_⟩
  intro _
  have h2 := totalPages_eq_ceilDiv (k * q.PageSize) { Page := k, PageSize := q.PageSize }
    hnn hfit hs1 hs2
  rw [hdiv] at h2
  have hm : (CreatePaginationResponse (k * q.PageSize)
      { Page := k, PageSize := q.PageSize }).HasMore =
      decide (k < (CreatePaginationResponse (k * q.PageSize)
        { Page := k, PageSize := q.PageSize }).TotalPages) := rfl
  rw [hm, h2]
  simp

/-- Witness of the amended C10: `totalRecords = 10 = 1 * 10`, `Page = 1`,
`PageSize = 10` gives `TotalPages = 1`, `HasMore = false`. -/
theorem exact_multiple_total_pages_witness :
    (CreatePaginationResponse (1 * 10) { Page := 1, PageSize := 10 }).TotalPages = 1 ∧
      ((1 : Int) ≤ 1 → (CreatePaginationResponse (1 * 10)
        { Page := 1, PageSize := 10 }).HasMore = false) :=
  exact_multiple_total_pages 1 { Page := 1, PageSize := 10 } (by decide) (by decide)
    (by decide) (by decide)

/-- C11: for every `totalRecords` and every `PaginationQuery q`, the response built by
`CreatePaginationResponse totalRecords q` echoes its inputs unchanged:
`TotalRecords = totalRecords`, `Page = q.Page` and `PageSize = q.PageSize`. -/
theorem response_echoes_inputs (totalRecords : Int) (q : PaginationQuery) :
    (CreatePaginationResponse totalRecords q).TotalRecords = totalRecords ∧
      (CreatePaginationResponse totalRecords q).Page = q.Page ∧
      (CreatePaginationResponse totalRecords q).PageSize = q.PageSize :=
  ⟨rfl, rfl, rfl⟩

/-- A page lies before the ceiling of `t / s` exactly when it does not reach `t`. -/
theorem lt_ceilDiv_iff (p t s : Int) (hs : 1 ≤ s) :
    p < (t + s - 1) / s ↔ p * s < t := by
  have hs0 : 0 < s := by omega
  constructor
  · intro h
    have h1 : p + 1 ≤ (t + s - 1) / s := by omega
    have h2 : (p + 1) * s ≤ t + s - 1 := (Int.le_ediv_iff_mul_le hs0).1 h1
    have e : (p + 1) * s = p * s + s := by ring
    rw [e] at h2
    omega
  · intro h
    have h2 : (p + 1) * s ≤ t + s - 1 := by
      have e : (p + 1) * s = p * s + s := by ring
      rw [e]; omega
    have h1 : p + 1 ≤ (t + s - 1) / s := (Int.le_ediv_iff_mul_le hs0).2 h2
    omega

/-- C12, as stated, fails. At `totalRecords = 2^53 + 1`, `Page = 2^53`, `PageSize = 1`
one record lies beyond the current page (`Page * PageSize < totalRecords`) and
`HasMore` is false, because the count is rounded to `2^53` by the conversion to
`float64`. And at `totalRecords = 10`, `Page = 2^62`, `PageSize = 4` the offset that
`Paginate` computes for `Page + 1` wraps around to `0`, a valid index, while
`HasMore` is false. -/
theorem hasMore_misses_last_record :
    ((9007199254740992 : Int) * 1 < 9007199254740993 ∧
      (CreatePaginationResponse 9007199254740993
        { Page := 9007199254740992, PageSize := 1 }).HasMore = false) ∧
      ((Paginate { limitExpression := none }
          { Page := 4611686018427387904 + 1, PageSize := 4 }).offsetClause = some 0 ∧
        (CreatePaginationResponse 10
          { Page := 4611686018427387904, PageSize := 4 }).HasMore = false) ∧
      ¬ ∀ (totalRecords : Int) (q : PaginationQuery), 0 ≤ totalRecords →
        totalRecords ≤ maxInt → 1 ≤ q.Page → q.Page ≤ maxInt →
        1 ≤ q.PageSize → q.PageSize ≤ 100 →
        ((CreatePaginationResponse totalRecords q).HasMore = true ↔
          q.Page * q.PageSize < totalRecords) := by
  refine ⟨by decide, by decide, ?_⟩
  intro h
  have h1 := h 9007199254740993 { Page := 9007199254740992, PageSize := 1 } (by decide)
    (by decide) (by decide) (by decide) (by decide) (by decide)
  revert h1
  decide

/-- C12, amended: for every `0 <= totalRecords <= 2^53` and every `PaginationQuery`
with `Page >= 1` and `1 <= PageSize <= 100`, `HasMore` is true if and only if at least
one record lies beyond the current page, `Page * PageSize < totalRecords`; and when
`Page * PageSize` is not above the largest `int`, that product is the offset
`Paginate` computes for `Page + 1`. -/
theorem hasMore_iff_records_beyond (totalRecords : Int) (q : PaginationQuery) (query : DB)
    (ht0 : 0 ≤ totalRecords) (ht : totalRecords ≤ 2 ^ 53)
    (hp : 1 ≤ q.Page) (hs1 : 1 ≤ q.PageSize) (hs2 : q.PageSize ≤ 100) :
    ((CreatePaginationResponse totalRecords q).HasMore = true ↔
        q.Page * q.PageSize < totalRecords) ∧
      (q.Page * q.PageSize ≤ maxInt →
        (Paginate query { Page := q.Page + 1, PageSize := q.PageSize }).offsetClause =
          some (q.Page * q.PageSize)) := by
  constructor
  · have h := totalPages_eq_ceilDiv totalRecords q ht0 ht hs1 hs2
    have hm : (CreatePaginationResponse totalRecords q).HasMore =
        decide (q.Page < (CreatePaginationResponse totalRecords q).TotalPages) := rfl
    rw [hm, h, decide_eq_true_iff]
    exact lt_ceilDiv_iff q.Page totalRecords q.PageSize hs1
  · intro hfit
    have hmin : minInt ≤ 0 := by decide
    have hle : q.Page ≤ q.Page * q.PageSize := by nlinarith
    have e0 : q.Page + 1 - 1 = q.Page := by ring
    have e1 : wrapInt q.Page = q.Page :=
      wrapInt_of_fits _ (le_trans hmin (by omega)) (le_trans hle hfit)
    have e2 : wrapInt (q.Page * q.PageSize) = q.Page * q.PageSize :=
      wrapInt_of_fits _ (le_trans hmin (le_trans (by omega) hle)) hfit
    have hpos : 0 < q.Page * q.PageSize := by nlinarith
    have hs : q.PageSize ≠ 0 := by omega
    have hP : Paginate query { Page := q.Page + 1, PageSize := q.PageSize } =
        (query.Offset (q.Page * q.PageSize)).Limit q.PageSize := by
      simp [Paginate, e0, e1, e2]
    rw [hP, offset_limit_of_pos query _ _ hpos hs]
    rfl

/-- Witness of the amended C12 at `totalRecords = 25`, `Page = 1`, `PageSize = 10`:
`HasMore` is true, `10 < 25`, and the offset for page 2 is `10`. -/
theorem hasMore_iff_records_beyond_witness :
    ((CreatePaginationResponse 25 { Page := 1, PageSize := 10 }).HasMore = true ↔
        (1 : Int) * 10 < 25) ∧
      ((1 : Int) * 10 ≤ maxInt →
        (Paginate { limitExpression := none }
          { Page := 1 + 1, PageSize := 10 }).offsetClause = some (1 * 10)) :=
  hasMore_iff_records_beyond 25 { Page := 1, PageSize := 10 }
    { limitExpression := none } (by decide) (by decide) (by decide)
    (by decide) (by decide)

/-! ## Where `ParsePaginationQuery` takes its numbers from -/

/-- A non-empty query parameter is a present one. -/
theorem getQuery_present_of_query_ne (c : Context) (key : String) (h : c.Query key ≠ "") :
    (c.GetQuery key).2 = true := by
  unfold Context.Query Context.GetQuery at h
  unfold Context.GetQuery
  cases hl : c.query.lookup key with
  | none => rw [hl] at h; exact absurd rfl h
  | some v => rfl

/-- Without an entry in the key store `c.GetInt` returns `0`. -/
theorem getInt_of_no_entry (c : Context) (key : String) (h : c.Get key = none) :
    (c.GetInt key).1 = 0 := by
  simp [Context.GetInt, h]

/-- After `c.Set(key, v)` with an `int`, `c.GetInt(key)` returns it without error. -/
theorem getInt_set (c : Context) (key : String) (v : Int) :
    (c.Set key (KeyValue.int v)).GetInt key = (v, none) := by
  simp [Context.GetInt, Context.Get, Context.Set, List.lookup]

/-- C13: `ParsePaginationQuery` takes the numbers it stores from the context's key
store (`c.GetInt`), not from the query string, which it only tests for being
non-empty. For every context whose key store holds no `page` and no `page_size`
entry it returns `Page = 1` and `PageSize = 10`, whatever the query parameters are;
and once a positive `int` is stored under `page` with `c.Set`, a non-empty `page`
query parameter of any content makes that stored number the `Page`. -/
theorem parse_reads_key_store (c : Context)
    (h1 : c.Get "page" = none) (h2 : c.Get "page_size" = none) :
    (ParsePaginationQuery c).Page = 1 ∧ (ParsePaginationQuery c).PageSize = 10 ∧
      (∀ v : Int, 0 < v → c.Query "page" ≠ "" →
        (ParsePaginationQuery (c.Set "page" (KeyValue.int v))).Page = v) := by
  refine ⟨?_, ?_, ?_⟩
  · rw [parse_Page, getInt_of_no_entry c "page" h1]
    simp [DefaultPage]
  · rw [parse_PageSize, getInt_of_no_entry c "page_size" h2]
    simp [DefaultPageSize]
  · intro v hv hq
    have hq2 : (c.Set "page" (KeyValue.int v)).Query "page" ≠ "" := hq
    have hg := getQuery_present_of_query_ne _ _ hq2
    rw [parse_Page, getInt_set]
    simp [hq2, hg, hv]

/-- Witness of C13 at the context of the request `?page=5&page_size=50` with an empty
key store. -/
theorem parse_reads_key_store_witness :
    (ParsePaginationQuery
        { query := [("page", "5"), ("page_size", "50")], Keys := [] }).Page = 1 ∧
      (ParsePaginationQuery
        { query := [("page", "5"), ("page_size", "50")], Keys := [] }).PageSize = 10 ∧
      (∀ v : Int, 0 < v →
        Context.Query { query := [("page", "5"), ("page_size", "50")], Keys := [] } "page" ≠ "" →
        (ParsePaginationQuery
          (Context.Set { query := [("page", "5"), ("page_size", "50")], Keys := [] } "page"
            (KeyValue.int v))).Page = v) :=
  parse_reads_key_store { query := [("page", "5"), ("page_size", "50")], Keys := [] }
    (by decide) (by decide)

end MentalArts
